import Mathlib

/-!
Shallow embedding of the evaluation core of the cxxxr/lisp interpreter
(src/src/object.rs, src/src/env.rs, src/src/eval.rs, src/src/equal.rs).

Modelling decisions:
* Rust `Object = Rc<ObjectKind>` values are immutable once constructed
  (there is no set-car style mutation), so cons cells are modelled as a
  plain inductive `Value`; Rc sharing of immutable data is unobservable.
* Environments are mutated through `Rc<RefCell<Env>>`, so they are
  modelled as a store (list) of scopes addressed by index; a scope holds
  an optional parent index and an association table.  New scopes are
  appended at the end of the store, so a parent index always points to an
  earlier entry, matching the acyclic Rc graph of the source.
* `eval_internal` is a general recursive function in Rust; here it takes
  a fuel argument and returns `none` when fuel runs out (divergence).
* Machine integers (`isize`) are modelled as `Int`; the source fixes no
  overflow policy (spec section 9 leaves it open) and the claims treat
  arithmetic as exact.
-/

namespace Lisp

/-- The six native procedures installed by `Env::init` (src/src/eval.rs).
In Rust a `Func` value holds a function pointer; here it holds a tag
naming one of the six builtins, which is dispatched by `applyBuiltin`. -/
inductive Builtin where
  | plus
  | is_atom
  | consF
  | carF
  | cdrF
  | equalF
deriving DecidableEq

/-- `ObjectKind` from src/src/object.rs.  The `closure` case is used by
src/src/eval.rs (`object::closure`, `ObjectKind::Closure`) but its
declaration is absent from the object.rs snapshot under src/.
Modelled from the spec: a Closure is an ordered sequence of parameter
names, an ordered sequence of body Values, and a shared reference to the
defining Environment (spec section 3); the body sequence is stored here
as a proper lisp list (a `Value`) because Lean cannot derive decidable
equality through a nested `List Value`; the encoding is isomorphic to the
`Vec<Object>` of the source.  The environment reference is a store index. -/
inductive Value where
  | nil
  | fixnum (n : Int)
  | symbol (s : String)
  | cons (car cdr : Value)
  | func (f : Builtin)
  | closure (parameters : List String) (body : Value) (env : Nat)
deriving DecidableEq

/-- `ObjectType` naming expected kinds in `MismatchType` errors.
The src snapshot of object.rs declares only Number, Function and Cons;
the `Symbol` and `List` cases are used by src/src/eval.rs
(`eval_define`, `eval_set`, `eval_lambda`).  Modelled from the spec:
section 7 lists the expected kinds as Number, Function, Cons, Symbol,
List. -/
inductive ObjectType where
  | Number
  | Function
  | Cons
  | Symbol
  | List
deriving DecidableEq

/-- `RuntimeError` from src/src/error.rs. -/
inductive RuntimeError where
  | UnboundVariable (name : String)
  | MismatchType (value : Value) (expected : ObjectType)
  | WrongNumArgs (actual expected : Nat)
  | TooFewArguments (actual min : Nat)
  | TooManyArguments (actual max : Nat)
deriving DecidableEq

/-- `ListIter` from src/src/object.rs, lines 53-72, as a function: the
iterator over a cons chain yields the car of every cons cell and stops
as soon as the cdr is not a cons, so a non-Nil dotted tail is dropped.
`listElems (.cons a d) = a :: listElems d` and `listElems v = []` for a
non-cons `v` reproduces exactly the collected output of the iterator. -/
def listElems : Value → List Value
  | .cons a d => a :: listElems d
  | _ => []

/-- Builds the proper list holding the given elements (used to state
properties; the reader of the source builds such chains). -/
def listOf : List Value → Value
  | [] => .nil
  | x :: rest => .cons x (listOf rest)

theorem listElems_listOf (l : List Value) : listElems (listOf l) = l := by
  induction l with
  | nil => rfl
  | cons x rest ih => simp [listOf, listElems, ih]

/-- One scope of the environment chain: `Env` from src/src/env.rs with
the `Rc<RefCell<Env>>` parent pointer replaced by a store index and the
`HashMap` replaced by an association list (lookup is by key only, so the
map order is unobservable). -/
structure Scope where
  parent : Option Nat
  table : List (String × Value)
deriving DecidableEq

/-- The heap of scopes; indices play the role of `Rc<RefCell<Env>>`. -/
abbrev Store := List Scope

/-- Key lookup in a scope table (`HashMap::get`). -/
def tableLookup : List (String × Value) → String → Option Value
  | [], _ => none
  | (k, w) :: rest, name => if k = name then some w else tableLookup rest name

/-- Key insert or overwrite in a scope table (`HashMap::insert`). -/
def tableInsert : List (String × Value) → String → Value → List (String × Value)
  | [], name, v => [(name, v)]
  | (k, w) :: rest, name, v =>
    if k = name then (k, v) :: rest else (k, w) :: tableInsert rest name v

/-- `Env::insert` (src/src/env.rs): insert into the local table of the
scope at `id` only.  An invalid index leaves the store unchanged (in the
source an `Rc` handle is always valid). -/
def envInsert (store : Store) (id : Nat) (name : String) (v : Value) : Store :=
  match store[id]? with
  | some sc => store.set id { sc with table := tableInsert sc.table name v }
  | none => store

/-- `Env::get` (src/src/env.rs): look up in the local table, else
recurse into the parent.  The recursion follows the Rc parent chain of
the source; `fuel` bounds the walk (the chain is acyclic and parent
indices decrease, so `store.length + 1` steps always suffice). -/
def envGetF : Nat → Store → Nat → String → Option Value
  | 0, _, _, _ => none
  | fuel + 1, store, id, name =>
    match store[id]? with
    | none => none
    | some sc =>
      match tableLookup sc.table name with
      | some v => some v
      | none =>
        match sc.parent with
        | none => none
        | some p => envGetF fuel store p name

def envGet (store : Store) (id : Nat) (name : String) : Option Value :=
  envGetF (store.length + 1) store id name

/-- `Env::set` (src/src/env.rs, lines 30-39): overwrite the binding in
the first scope of the chain whose table contains `name`; `none` means
no scope in the chain contains it (the source returns `false`). -/
def envSetF : Nat → Store → Nat → String → Value → Option Store
  | 0, _, _, _, _ => none
  | fuel + 1, store, id, name, v =>
    match store[id]? with
    | none => none
    | some sc =>
      match tableLookup sc.table name with
      | some _ => some (store.set id { sc with table := tableInsert sc.table name v })
      | none =>
        match sc.parent with
        | none => none
        | some p => envSetF fuel store p name v

def envSet (store : Store) (id : Nat) (name : String) (v : Value) : Option Store :=
  envSetF (store.length + 1) store id name v

/-- The list of scope indices visited when walking the parent chain from
`id` (the search order of `Env::set` and `Env::get`). -/
def envChainF : Nat → Store → Nat → List Nat
  | 0, _, _ => []
  | fuel + 1, store, id =>
    match store[id]? with
    | none => []
    | some sc =>
      match sc.parent with
      | none => [id]
      | some p => id :: envChainF fuel store p

def envChain (store : Store) (id : Nat) : List Nat :=
  envChainF (store.length + 1) store id

/-- The binding of `name` in scope `i` of the store, if any. -/
def scopeLookup (store : Store) (i : Nat) (name : String) : Option Value :=
  match store[i]? with
  | some sc => tableLookup sc.table name
  | none => none

/-- Whether scope `i` contains a binding for `name`. -/
def scopeHas (store : Store) (i : Nat) (name : String) : Bool :=
  (scopeLookup store i name).isSome

/-- The parent index of scope `i`, if any. -/
def scopeParent (store : Store) (i : Nat) : Option Nat :=
  match store[i]? with
  | some sc => sc.parent
  | none => none

/-- `check_num_args` from src/src/eval.rs. -/
def check_num_args (args : List Value) (expected : Nat) : Except RuntimeError Unit :=
  if args.length ≠ expected then .error (.WrongNumArgs args.length expected)
  else .ok ()

/-- `check_num_args_range` from src/src/eval.rs. -/
def check_num_args_range (args : List Value) (min : Nat) (max : Option Nat) :
    Except RuntimeError Unit :=
  if args.length < min then .error (.TooFewArguments args.length min)
  else
    match max with
    | some m => if m < args.length then .error (.TooManyArguments args.length m) else .ok ()
    | none => .ok ()

/-- `equal` from src/src/equal.rs: structural on Nil/Fixnum/Symbol/Cons,
identity on Func (the source compares the addresses of the two `Rc`
payloads).  The src snapshot of equal.rs predates the Closure variant;
modelled from the spec: section 4.1 compares closures only by identity,
which the pure embedding approximates by equality of the component
triple (the two ways of comparing agree on every comparison of a value
with a clone of itself, the only case the claims exercise). -/
def lispEqual : Value → Value → Bool
  | .nil, .nil => true
  | .fixnum a, .fixnum b => decide (a = b)
  | .symbol a, .symbol b => decide (a = b)
  | .cons a b, .cons c d => lispEqual a c && lispEqual b d
  | .func a, .func b => decide (a = b)
  | .closure p b e, .closure q c f => decide (p = q) && decide (b = c) && decide (e = f)
  | _, _ => false

namespace builtin

/-- Accumulating loop of `builtin::plus` (src/src/eval.rs, lines 193-209). -/
def plusAcc : Int → List Value → Except RuntimeError Value
  | acc, [] => .ok (.fixnum acc)
  | acc, .fixnum n :: rest => plusAcc (acc + n) rest
  | _, v :: _ => .error (.MismatchType v .Number)

/-- `builtin::plus`. -/
def plus (args : List Value) : Except RuntimeError Value :=
  plusAcc 0 args

/-- `builtin::is_atom`. -/
def is_atom (args : List Value) : Except RuntimeError Value :=
  match check_num_args args 1 with
  | .error e => .error e
  | .ok _ =>
    match args.headD .nil with
    | .cons _ _ => .ok .nil
    | _ => .ok (.symbol "t")

/-- `builtin::cons`.  The index accesses are safe after the arity check;
`getD` defaults are never reached. -/
def cons (args : List Value) : Except RuntimeError Value :=
  match check_num_args args 2 with
  | .error e => .error e
  | .ok _ => .ok (.cons (args.headD .nil) (args.getD 1 .nil))

/-- `builtin::cxr`: shared body of car and cdr. -/
def cxr (args : List Value) (accessor : Value → Value → Value) :
    Except RuntimeError Value :=
  match check_num_args args 1 with
  | .error e => .error e
  | .ok _ =>
    match args.headD .nil with
    | .cons a d => .ok (accessor a d)
    | v => .error (.MismatchType v .Cons)

/-- `builtin::car`. -/
def car (args : List Value) : Except RuntimeError Value :=
  cxr args (fun a _ => a)

/-- `builtin::cdr`. -/
def cdr (args : List Value) : Except RuntimeError Value :=
  cxr args (fun _ d => d)

/-- `builtin::equal`. -/
def equal (args : List Value) : Except RuntimeError Value :=
  match check_num_args args 2 with
  | .error e => .error e
  | .ok _ =>
    if lispEqual (args.headD .nil) (args.getD 1 .nil) then .ok (.symbol "t")
    else .ok .nil

end builtin

/-- Dispatch of a `Func` value: in the source the function pointer is
called directly; here the tag selects the corresponding builtin. -/
def applyBuiltin : Builtin → List Value → Except RuntimeError Value
  | .plus, args => builtin.plus args
  | .is_atom, args => builtin.is_atom args
  | .consF, args => builtin.cons args
  | .carF, args => builtin.car args
  | .cdrF, args => builtin.cdr args
  | .equalF, args => builtin.equal args

/-- `Env::global_env` followed by `Env::init` (src/src/env.rs and the
bottom of src/src/eval.rs): a single root scope holding the six
builtins. -/
def global_env : Store :=
  [{ parent := none,
     table := [("+", .func .plus), ("atom?", .func .is_atom),
               ("cons", .func .consF), ("car", .func .carF),
               ("cdr", .func .cdrF), ("equal", .func .equalF)] }]

/-- Decidable equality for `Except`, missing from the library version in
use; needed so that concrete evaluation results can be compared by
`decide`. -/
instance {ε α : Type} [DecidableEq ε] [DecidableEq α] : DecidableEq (Except ε α) := fun x y =>
  match x, y with
  | .ok a, .ok b =>
    if h : a = b then .isTrue (by rw [h]) else .isFalse (fun hh => h (Except.ok.inj hh))
  | .error a, .error b =>
    if h : a = b then .isTrue (by rw [h]) else .isFalse (fun hh => h (Except.error.inj hh))
  | .ok _, .error _ => .isFalse Except.noConfusion
  | .error _, .ok _ => .isFalse Except.noConfusion

/-- Result of one evaluation: `none` is fuel exhaustion (divergence),
`some` carries the `EvalResult` of the source together with the store. -/
abbrev EvalRes := Option (Except RuntimeError (Value × Store))

/-- Type of the recursive evaluator passed into the helpers. -/
abbrev Ev := Value → Nat → Store → EvalRes

/-- Lifts a store-independent result into `EvalRes`. -/
def liftE (r : Except RuntimeError Value) (store : Store) : EvalRes :=
  match r with
  | .ok v => some (.ok (v, store))
  | .error e => some (.error e)

/-- `eval_quote` from src/src/eval.rs, lines 34-37.  The index access is
safe after the arity check; the `headD` default is never reached. -/
def eval_quote (args : List Value) : Except RuntimeError Value :=
  match check_num_args args 1 with
  | .error e => .error e
  | .ok _ => .ok (args.headD .nil)

/-- `eval_if` from src/src/eval.rs, lines 39-48. -/
def eval_if (ev : Ev) (args : List Value) (envId : Nat) (store : Store) : EvalRes :=
  match check_num_args_range args 2 (some 3) with
  | .error e => some (.error e)
  | .ok _ =>
    match ev (args.headD .nil) envId store with
    | none => none
    | some (.error e) => some (.error e)
    | some (.ok (.nil, store1)) =>
      match args.get? 2 with
      | some x => ev x envId store1
      | none => some (.ok (.nil, store1))
    | some (.ok (_, store1)) => ev (args.getD 1 .nil) envId store1

/-- `eval_define` from src/src/eval.rs, lines 50-63. -/
def eval_define (ev : Ev) (args : List Value) (envId : Nat) (store : Store) : EvalRes :=
  match check_num_args args 2 with
  | .error e => some (.error e)
  | .ok _ =>
    match args.headD .nil with
    | .symbol name =>
      match ev (args.getD 1 .nil) envId store with
      | none => none
      | some (.error e) => some (.error e)
      | some (.ok (v, store1)) => some (.ok (v, envInsert store1 envId name v))
    | var => some (.error (.MismatchType var .Symbol))

/-- Parameter collection loop of `eval_lambda`: every element must be a
Symbol, the first offender is reported. -/
def collectSymbols : List Value → Except RuntimeError (List String)
  | [] => .ok []
  | .symbol s :: rest =>
    match collectSymbols rest with
    | .ok names => .ok (s :: names)
    | .error e => .error e
  | v :: _ => .error (.MismatchType v .Symbol)

/-- `eval_lambda` from src/src/eval.rs, lines 65-89.  The args iterator
past the head symbol corresponds to the element list: its first element
is the parameter-list argument, the rest become the body verbatim. -/
def eval_lambda (args : List Value) (envId : Nat) : Except RuntimeError Value :=
  match args with
  | [] => .error (.TooFewArguments 0 1)
  | paramsArg :: body =>
    match
      (match paramsArg with
       | .cons a d => .ok (a :: listElems d)
       | .nil => .ok []
       | _ => .error (.MismatchType paramsArg .List) :
        Except RuntimeError (List Value)) with
    | .error e => .error e
    | .ok list =>
      match collectSymbols list with
      | .error e => .error e
      | .ok params => .ok (.closure params (listOf body) envId)

/-- `eval_set` from src/src/eval.rs, lines 91-108. -/
def eval_set (ev : Ev) (args : List Value) (envId : Nat) (store : Store) : EvalRes :=
  match check_num_args args 2 with
  | .error e => some (.error e)
  | .ok _ =>
    match args.headD .nil with
    | .symbol name =>
      match ev (args.getD 1 .nil) envId store with
      | none => none
      | some (.error e) => some (.error e)
      | some (.ok (v, store1)) =>
        match envSet store1 envId name v with
        | some store2 => some (.ok (v, store2))
        | none => some (.error (.UnboundVariable name))
    | var => some (.error (.MismatchType var .Symbol))

/-- Parameter binding loop of `apply_closure`: zip of parameters and
arguments inserted into the fresh scope table in order. -/
def bindParams : List (String × Value) → List String → List Value → List (String × Value)
  | table, p :: ps, a :: rest => bindParams (tableInsert table p a) ps rest
  | table, _, _ => table

/-- Body loop of `apply_closure`: evaluate every form in order, keeping
the last result; `result` starts as Nil. -/
def evalBodyWith (ev : Ev) : List Value → Nat → Store → Value → EvalRes
  | [], _, store, result => some (.ok (result, store))
  | form :: rest, envId, store, _ =>
    match ev form envId store with
    | none => none
    | some (.error e) => some (.error e)
    | some (.ok (v, store1)) => evalBodyWith ev rest envId store1 v

/-- `apply_closure` from src/src/eval.rs, lines 110-131.  The fresh
child scope is allocated at the end of the store, so its index is the
old store length and its parent is the captured environment. -/
def apply_closure (ev : Ev) (parameters : List String) (body : Value) (cenv : Nat)
    (args : List Value) (store : Store) : EvalRes :=
  if parameters.length ≠ args.length then
    some (.error (.WrongNumArgs args.length parameters.length))
  else
    evalBodyWith ev (listElems body) store.length
      (store ++ [{ parent := some cenv, table := bindParams [] parameters args }]) .nil

/-- Argument loop of `apply_function`: evaluate every element left to
right, threading the store, stopping at the first error. -/
def evalArgsWith (ev : Ev) : List Value → Nat → Store →
    Option (Except RuntimeError (List Value × Store))
  | [], _, store => some (.ok ([], store))
  | v :: rest, envId, store =>
    match ev v envId store with
    | none => none
    | some (.error e) => some (.error e)
    | some (.ok (w, store1)) =>
      match evalArgsWith ev rest envId store1 with
      | none => none
      | some (.error e) => some (.error e)
      | some (.ok (ws, store2)) => some (.ok (w :: ws, store2))

/-- `apply_function` from src/src/eval.rs, lines 133-145. -/
def apply_function (ev : Ev) (first : Value) (rest : List Value) (envId : Nat)
    (store : Store) : EvalRes :=
  match ev first envId store with
  | none => none
  | some (.error e) => some (.error e)
  | some (.ok (f, store1)) =>
    match evalArgsWith ev rest envId store1 with
    | none => none
    | some (.error e) => some (.error e)
    | some (.ok (argv, store2)) =>
      match f with
      | .func b => liftE (applyBuiltin b argv) store2
      | .closure ps body cenv => apply_closure ev ps body cenv argv store2
      | _ => some (.error (.MismatchType f .Function))

/-- `eval_internal` from src/src/eval.rs, lines 147-186, with fuel.  A
cons expression is consumed only through its `ListIter` elements: the
head is the first element, the remaining elements are the argument
chain.  The Rust `match &**name` over string literals is the if chain
below. -/
def eval_internal : Nat → Value → Nat → Store → EvalRes
  | 0, _, _, _ => none
  | fuel + 1, x, envId, store =>
    match x with
    | .nil => some (.ok (.nil, store))
    | .fixnum n => some (.ok (.fixnum n, store))
    | .func f => some (.ok (.func f, store))
    | .closure p b e => some (.ok (.closure p b e, store))
    | .symbol s =>
      match envGet store envId s with
      | some v => some (.ok (v, store))
      | none => some (.error (.UnboundVariable s))
    | .cons a d =>
      let rest := listElems d
      match a with
      | .symbol s =>
        if s = "quote" then liftE (eval_quote rest) store
        else if s = "if" then eval_if (eval_internal fuel) rest envId store
        else if s = "define" then eval_define (eval_internal fuel) rest envId store
        else if s = "lambda" then liftE (eval_lambda rest envId) store
        else if s = "set!" then eval_set (eval_internal fuel) rest envId store
        else apply_function (eval_internal fuel) (.symbol s) rest envId store
      | _ => apply_function (eval_internal fuel) a rest envId store

/-- `eval` from src/src/eval.rs (the public entry point). -/
def eval (fuel : Nat) (x : Value) (envId : Nat) (store : Store) : EvalRes :=
  eval_internal fuel x envId store

/-- Whether a head value selects one of the five special forms. -/
def isSpecialHead : Value → Bool
  | .symbol s => s = "quote" || s = "if" || s = "define" || s = "lambda" || s = "set!"
  | _ => false

/-!  Dispatch lemmas: how `eval_internal` hands a cons expression to the
special-form handlers or to `apply_function`, with the argument chain
read off by `ListIter`. -/

theorem eval_quote_dispatch (fuel : Nat) (d : Value) (envId : Nat) (store : Store) :
    eval (fuel + 1) (.cons (.symbol "quote") d) envId store
      = liftE (eval_quote (listElems d)) store := rfl

theorem eval_if_dispatch (fuel : Nat) (d : Value) (envId : Nat) (store : Store) :
    eval (fuel + 1) (.cons (.symbol "if") d) envId store
      = eval_if (eval_internal fuel) (listElems d) envId store := rfl

theorem eval_define_dispatch (fuel : Nat) (d : Value) (envId : Nat) (store : Store) :
    eval (fuel + 1) (.cons (.symbol "define") d) envId store
      = eval_define (eval_internal fuel) (listElems d) envId store := rfl

theorem eval_lambda_dispatch (fuel : Nat) (d : Value) (envId : Nat) (store : Store) :
    eval (fuel + 1) (.cons (.symbol "lambda") d) envId store
      = liftE (eval_lambda (listElems d) envId) store := rfl

theorem eval_set_dispatch (fuel : Nat) (d : Value) (envId : Nat) (store : Store) :
    eval (fuel + 1) (.cons (.symbol "set!") d) envId store
      = eval_set (eval_internal fuel) (listElems d) envId store := rfl

theorem eval_apply_dispatch (fuel : Nat) (a d : Value) (envId : Nat) (store : Store)
    (h : isSpecialHead a = false) :
    eval (fuel + 1) (.cons a d) envId store
      = apply_function (eval_internal fuel) a (listElems d) envId store := by
  cases a with
  | symbol s =>
    simp only [isSpecialHead, Bool.or_eq_false_iff, decide_eq_false_iff_not] at h
    obtain ⟨⟨⟨⟨h1, h2⟩, h3⟩, h4⟩, h5⟩ := h
    simp only [eval, eval_internal, if_neg h1, if_neg h2, if_neg h3, if_neg h4, if_neg h5]
  | nil => rfl
  | fixnum n => rfl
  | cons a d => rfl
  | func f => rfl
  | closure p b e => rfl

/-- C7: evaluating (quote x) returns x itself, unevaluated, for every
environment and store (so it cannot fail with UnboundVariable, whatever
unbound symbols x contains, and it works with any remaining fuel); with
any argument count other than exactly 1 it returns WrongNumArgs without
evaluating anything (the result does not depend on the arguments, the
environment or the store). -/
theorem C7_quote_special_form (fuel : Nat) (x : Value) (envId : Nat) (store : Store) :
    eval (fuel + 1) (.cons (.symbol "quote") (.cons x .nil)) envId store
      = some (.ok (x, store)) ∧
    ∀ args : List Value, args.length ≠ 1 →
      eval (fuel + 1) (.cons (.symbol "quote") (listOf args)) envId store
        = some (.error (.WrongNumArgs args.length 1)) := by
  constructor
  · rfl
  · intro args h
    rw [eval_quote_dispatch, listElems_listOf]
    simp [eval_quote, check_num_args, h, liftE]

theorem C7_quote_special_form_witness :
    eval 1 (.cons (.symbol "quote") (.cons (.symbol "undefined-name") .nil)) 0 []
      = some (.ok (.symbol "undefined-name", [])) ∧
    eval 1 (.cons (.symbol "quote") (listOf [.fixnum 1, .fixnum 2])) 0 []
      = some (.error (.WrongNumArgs 2 1)) :=
  ⟨(C7_quote_special_form 0 (.symbol "undefined-name") 0 []).1,
   (C7_quote_special_form 0 .nil 0 []).2 [.fixnum 1, .fixnum 2] (by decide)⟩

/-- C1: an if form with fewer than 2 arguments returns TooFewArguments
and with more than 3 returns TooManyArguments, without evaluating any
argument (the result does not depend on the arguments, the environment,
the store or the fuel left for subevaluations); with 2 or 3 arguments it
evaluates the test, and returns Nil or the evaluated else branch when
the test gives Nil (the then branch does not occur in the result), and
the evaluated then branch when the test gives any non-Nil value (the
else branch does not occur in the result). -/
theorem C1_if_special_form (fuel : Nat) (args : List Value) (envId : Nat) (store : Store) :
    (args.length < 2 →
      eval (fuel + 1) (.cons (.symbol "if") (listOf args)) envId store
        = some (.error (.TooFewArguments args.length 2))) ∧
    (3 < args.length →
      eval (fuel + 1) (.cons (.symbol "if") (listOf args)) envId store
        = some (.error (.TooManyArguments args.length 3))) ∧
    (∀ t th, args = [t, th] →
      eval (fuel + 1) (.cons (.symbol "if") (listOf args)) envId store
        = match eval fuel t envId store with
          | none => none
          | some (.error e) => some (.error e)
          | some (.ok (.nil, store1)) => some (.ok (.nil, store1))
          | some (.ok (_, store1)) => eval fuel th envId store1) ∧
    (∀ t th el, args = [t, th, el] →
      eval (fuel + 1) (.cons (.symbol "if") (listOf args)) envId store
        = match eval fuel t envId store with
          | none => none
          | some (.error e) => some (.error e)
          | some (.ok (.nil, store1)) => eval fuel el envId store1
          | some (.ok (_, store1)) => eval fuel th envId store1) := by
  refine ⟨?_, ?_, ?_, ?_⟩
  · intro h
    rw [eval_if_dispatch, listElems_listOf]
    simp only [eval_if, check_num_args_range, if_pos h]
  · intro h
    rw [eval_if_dispatch, listElems_listOf]
    simp only [eval_if, check_num_args_range, if_neg (by omega : ¬ args.length < 2),
      if_pos h]
  · rintro t th rfl
    rw [eval_if_dispatch, listElems_listOf]
    have hc : check_num_args_range [t, th] 2 (some 3) = .ok () := rfl
    simp only [eval_if, hc, eval]
    rw [show [t, th].headD Value.nil = t from rfl,
        show [t, th].getD 1 Value.nil = th from rfl,
        show [t, th].get? 2 = (none : Option Value) from rfl]
  · rintro t th el rfl
    rw [eval_if_dispatch, listElems_listOf]
    have hc : check_num_args_range [t, th, el] 2 (some 3) = .ok () := rfl
    simp only [eval_if, hc, eval]
    rw [show [t, th, el].headD Value.nil = t from rfl,
        show [t, th, el].getD 1 Value.nil = th from rfl,
        show [t, th, el].get? 2 = some el from rfl]

theorem C1_if_special_form_witness :
    eval 2 (.cons (.symbol "if") (listOf [.fixnum 1])) 0 []
      = some (.error (.TooFewArguments 1 2)) ∧
    eval 2 (.cons (.symbol "if") (listOf [.nil, .nil, .nil, .nil])) 0 []
      = some (.error (.TooManyArguments 4 3)) ∧
    eval 2 (.cons (.symbol "if") (listOf [.fixnum 1, .fixnum 7])) 0 []
      = some (.ok (.fixnum 7, [])) ∧
    eval 2 (.cons (.symbol "if") (listOf [.nil, .fixnum 7, .fixnum 8])) 0 []
      = some (.ok (.fixnum 8, [])) := by
  refine ⟨(C1_if_special_form 1 [.fixnum 1] 0 []).1 (by decide),
    (C1_if_special_form 1 [.nil, .nil, .nil, .nil] 0 []).2.1 (by decide), ?_, ?_⟩
  · have h := (C1_if_special_form 1 [.fixnum 1, .fixnum 7] 0 []).2.2.1 (.fixnum 1) (.fixnum 7) rfl
    exact h.trans (by rfl)
  · have h := (C1_if_special_form 1 [.nil, .fixnum 7, .fixnum 8] 0 []).2.2.2 .nil (.fixnum 7)
      (.fixnum 8) rfl
    exact h.trans (by rfl)

theorem plusAcc_map (acc : Int) (ns : List Int) :
    builtin.plusAcc acc (ns.map Value.fixnum) = .ok (.fixnum (ns.foldl (· + ·) acc)) := by
  induction ns generalizing acc with
  | nil => rfl
  | cons n rest ih => simpa [builtin.plusAcc] using ih (acc + n)

theorem plusAcc_first_bad (acc : Int) (pre : List Value) (bad : Value) (post : List Value)
    (hpre : ∀ x ∈ pre, ∃ n : Int, x = .fixnum n) (hbad : ∀ n : Int, bad ≠ .fixnum n) :
    builtin.plusAcc acc (pre ++ bad :: post) = .error (.MismatchType bad .Number) := by
  induction pre generalizing acc with
  | nil =>
    cases bad with
    | fixnum n => exact absurd rfl (hbad n)
    | nil => rfl
    | symbol s => rfl
    | cons a d => rfl
    | func f => rfl
    | closure p b e => rfl
  | cons x rest ih =>
    obtain ⟨n, rfl⟩ := hpre x (by simp)
    simpa [builtin.plusAcc] using ih (acc + n) (fun y hy => hpre y (by simp [hy]))

/-- C8: the builtin + returns Integer 0 on zero arguments, the
left-to-right sum of any all-Integer argument list (exact Int
arithmetic), and MismatchType(arg, Number) for the leftmost non-Integer
argument; in particular evaluating (+ a b) in the global environment
yields a + b. -/
theorem C8_plus_builtin :
    builtin.plus [] = .ok (.fixnum 0) ∧
    (∀ ns : List Int, builtin.plus (ns.map Value.fixnum)
        = .ok (.fixnum (ns.foldl (· + ·) 0))) ∧
    (∀ pre (bad : Value) post, (∀ x ∈ pre, ∃ n : Int, x = .fixnum n) →
      (∀ n : Int, bad ≠ .fixnum n) →
      builtin.plus (pre ++ bad :: post) = .error (.MismatchType bad .Number)) ∧
    (∀ a b : Int,
      eval 2 (.cons (.symbol "+") (.cons (.fixnum a) (.cons (.fixnum b) .nil))) 0 global_env
        = some (.ok (.fixnum (a + b), global_env))) := by
  refine ⟨rfl, fun ns => plusAcc_map 0 ns, fun pre bad post h1 h2 =>
    plusAcc_first_bad 0 pre bad post h1 h2, fun a b => ?_⟩
  have h : eval 2 (.cons (.symbol "+") (.cons (.fixnum a) (.cons (.fixnum b) .nil))) 0 global_env
      = some (.ok (.fixnum (0 + a + b), global_env)) := rfl
  rw [h]
  norm_num

theorem C8_plus_builtin_witness :
    builtin.plus [] = .ok (.fixnum 0) ∧
    builtin.plus ([(3 : Int), 4, 5].map Value.fixnum) = .ok (.fixnum 12) ∧
    builtin.plus [.fixnum 1, .symbol "t", .fixnum 2]
      = .error (.MismatchType (.symbol "t") .Number) ∧
    eval 2 (.cons (.symbol "+") (.cons (.fixnum 3) (.cons (.fixnum 4) .nil))) 0 global_env
      = some (.ok (.fixnum 7, global_env)) := by
  refine ⟨C8_plus_builtin.1, (C8_plus_builtin.2.1 [3, 4, 5]).trans (by norm_num), ?_, ?_⟩
  · exact C8_plus_builtin.2.2.1 [.fixnum 1] (.symbol "t") [.fixnum 2]
      (by intro x hx; simp at hx; exact ⟨1, hx⟩) (by intro n h; cases h)
  · exact (C8_plus_builtin.2.2.2 3 4).trans (by norm_num)

theorem lispEqual_refl (x : Value) : lispEqual x x = true := by
  induction x with
  | nil => rfl
  | fixnum n => simp [lispEqual]
  | symbol s => simp [lispEqual]
  | cons a d iha ihd => simp [lispEqual, iha, ihd]
  | func f => simp [lispEqual]
  | closure p b e => simp [lispEqual]

/-- C9: the builtin cons applied to two values builds the Pair of
exactly those values; car and cdr of that Pair give back the original
values, which are structurally equal to themselves (round trip under
the structural equality of equal.rs); car and cdr on a non-Pair give
MismatchType(arg, Cons); car, cdr and cons with the wrong argument
count give WrongNumArgs. -/
theorem C9_cons_car_cdr :
    (∀ x y : Value, builtin.cons [x, y] = .ok (.cons x y) ∧
      builtin.car [Value.cons x y] = .ok x ∧ builtin.cdr [Value.cons x y] = .ok y ∧
      lispEqual x x = true ∧ lispEqual y y = true) ∧
    (∀ v : Value, (∀ a d, v ≠ .cons a d) →
      builtin.car [v] = .error (.MismatchType v .Cons) ∧
      builtin.cdr [v] = .error (.MismatchType v .Cons)) ∧
    (∀ args : List Value, args.length ≠ 1 →
      builtin.car args = .error (.WrongNumArgs args.length 1) ∧
      builtin.cdr args = .error (.WrongNumArgs args.length 1)) ∧
    (∀ args : List Value, args.length ≠ 2 →
      builtin.cons args = .error (.WrongNumArgs args.length 2)) := by
  refine ⟨fun x y => ⟨rfl, rfl, rfl, lispEqual_refl x, lispEqual_refl y⟩,
    fun v hv => ?_, fun args h => ?_, fun args h => ?_⟩
  · cases v with
    | cons a d => exact absurd rfl (hv a d)
    | nil => exact ⟨rfl, rfl⟩
    | fixnum n => exact ⟨rfl, rfl⟩
    | symbol s => exact ⟨rfl, rfl⟩
    | func f => exact ⟨rfl, rfl⟩
    | closure p b e => exact ⟨rfl, rfl⟩
  · constructor <;> simp [builtin.car, builtin.cdr, builtin.cxr, check_num_args, h]
  · simp [builtin.cons, check_num_args, h]

theorem C9_cons_car_cdr_witness :
    builtin.cons [.fixnum 1, .symbol "y"] = .ok (.cons (.fixnum 1) (.symbol "y")) ∧
    builtin.car [Value.cons (.fixnum 1) (.symbol "y")] = .ok (.fixnum 1) ∧
    builtin.car [Value.symbol "a"] = .error (.MismatchType (.symbol "a") .Cons) ∧
    builtin.cdr [] = .error (.WrongNumArgs 0 1) ∧
    builtin.cons [.nil] = .error (.WrongNumArgs 1 2) :=
  ⟨(C9_cons_car_cdr.1 (.fixnum 1) (.symbol "y")).1,
   (C9_cons_car_cdr.1 (.fixnum 1) (.symbol "y")).2.1,
   (C9_cons_car_cdr.2.1 (.symbol "a") (by intro a d h; cases h)).1,
   (C9_cons_car_cdr.2.2.1 [] (by decide)).2,
   C9_cons_car_cdr.2.2.2 [.nil] (by decide)⟩

/-- C10: a pair expression with an improper (dotted) element chain
evaluates exactly as the proper list of the chain's cars: the dotted
tail is dropped by the list iterator, never evaluated and never an
error; the same holds for the parameter chain of a lambda form, so a
dotted parameter list such as (x . 5) is accepted, yielding the same
closure as (x). -/
theorem C10_dotted_lists :
    (∀ (fuel : Nat) (a d : Value) (envId : Nat) (store : Store),
      eval fuel (.cons a d) envId store
        = eval fuel (.cons a (listOf (listElems d))) envId store) ∧
    (∀ (fuel : Nat) (p q rest : Value) (envId : Nat) (store : Store),
      eval fuel (.cons (.symbol "lambda") (.cons (.cons p q) rest)) envId store
        = eval fuel (.cons (.symbol "lambda") (.cons (.cons p (listOf (listElems q))) rest))
            envId store) ∧
    eval 1 (.cons (.symbol "lambda")
        (.cons (.cons (.symbol "x") (.fixnum 5)) (.cons (.symbol "x") .nil))) 0 global_env
      = some (.ok (.closure ["x"] (.cons (.symbol "x") .nil) 0, global_env)) := by
  refine ⟨fun fuel a d envId store => ?_, fun fuel p q rest envId store => ?_, rfl⟩
  · cases fuel with
    | zero => rfl
    | succ n => simp only [eval, eval_internal, listElems_listOf]
  · cases fuel with
    | zero => rfl
    | succ n =>
      rw [eval_lambda_dispatch, eval_lambda_dispatch]
      simp only [listElems, eval_lambda, listElems_listOf]

theorem collectSymbols_first_bad (pre : List Value) (bad : Value) (post : List Value)
    (hpre : ∀ x ∈ pre, ∃ s : String, x = .symbol s) (hbad : ∀ s : String, bad ≠ .symbol s) :
    collectSymbols (pre ++ bad :: post) = .error (.MismatchType bad .Symbol) := by
  induction pre with
  | nil =>
    cases bad with
    | symbol s => exact absurd rfl (hbad s)
    | nil => rfl
    | fixnum n => rfl
    | cons a d => rfl
    | func f => rfl
    | closure p b e => rfl
  | cons x rest ih =>
    obtain ⟨s, rfl⟩ := hpre x (by simp)
    simp [collectSymbols, ih (fun y hy => hpre y (by simp [hy]))]

/-- C6 as amended: the parameter-list argument of a lambda form must be
Nil or a Pair (anything else yields MismatchType(arg, List)); the
parameters are the elements yielded by list iteration over the Pair
chain, which silently drops an improper (dotted) tail; the first
yielded element that is not a Symbol gives MismatchType(element,
Symbol); a missing parameter-list argument yields TooFewArguments(0,1);
on success the remaining elements become the closure body verbatim,
none of them evaluated (one unit of fuel suffices whatever the body),
and a new Closure capturing the current environment by reference is
returned, the store unchanged. -/
theorem C6_lambda_special_form (fuel : Nat) (envId : Nat) (store : Store) :
    eval (fuel + 1) (.cons (.symbol "lambda") .nil) envId store
      = some (.error (.TooFewArguments 0 1)) ∧
    (∀ p rest, (∀ a d, p ≠ .cons a d) → p ≠ .nil →
      eval (fuel + 1) (.cons (.symbol "lambda") (.cons p rest)) envId store
        = some (.error (.MismatchType p .List))) ∧
    (∀ a d rest pre bad post, a :: listElems d = pre ++ bad :: post →
      (∀ x ∈ pre, ∃ s : String, x = .symbol s) → (∀ s : String, bad ≠ .symbol s) →
      eval (fuel + 1) (.cons (.symbol "lambda") (.cons (.cons a d) rest)) envId store
        = some (.error (.MismatchType bad .Symbol))) ∧
    (∀ a d rest names, collectSymbols (a :: listElems d) = .ok names →
      eval (fuel + 1) (.cons (.symbol "lambda") (.cons (.cons a d) rest)) envId store
        = some (.ok (.closure names (listOf (listElems rest)) envId, store))) ∧
    (∀ rest,
      eval (fuel + 1) (.cons (.symbol "lambda") (.cons .nil rest)) envId store
        = some (.ok (.closure [] (listOf (listElems rest)) envId, store))) := by
  refine ⟨rfl, fun p rest hp hn => ?_, fun a d rest pre bad post he h1 h2 => ?_,
    fun a d rest names hn => ?_, fun rest => ?_⟩
  · rw [eval_lambda_dispatch]
    cases p with
    | cons a d => exact absurd rfl (hp a d)
    | nil => exact absurd rfl hn
    | fixnum n => rfl
    | symbol s => rfl
    | func f => rfl
    | closure pp b e => rfl
  · rw [eval_lambda_dispatch]
    simp only [listElems, eval_lambda]
    rw [he, collectSymbols_first_bad pre bad post h1 h2]
    rfl
  · rw [eval_lambda_dispatch]
    simp only [listElems, eval_lambda]
    rw [hn]
    rfl
  · rw [eval_lambda_dispatch]
    simp only [listElems, eval_lambda, collectSymbols]
    rfl

theorem C6_lambda_special_form_witness :
    eval 1 (.cons (.symbol "lambda") (.cons (.fixnum 7) .nil)) 0 []
      = some (.error (.MismatchType (.fixnum 7) .List)) ∧
    eval 1 (.cons (.symbol "lambda")
        (.cons (.cons (.symbol "x") (.cons (.fixnum 5) .nil)) .nil)) 0 []
      = some (.error (.MismatchType (.fixnum 5) .Symbol)) ∧
    eval 1 (.cons (.symbol "lambda")
        (.cons (.cons (.symbol "x") (.fixnum 5)) (.cons (.symbol "x") .nil))) 0 []
      = some (.ok (.closure ["x"] (.cons (.symbol "x") .nil) 0, [])) ∧
    eval 1 (.cons (.symbol "lambda") (.cons .nil .nil)) 0 []
      = some (.ok (.closure [] .nil 0, [])) := by
  refine ⟨(C6_lambda_special_form 0 0 []).2.1 (.fixnum 7) .nil
      (by intro a d h; cases h) (by intro h; cases h), ?_, ?_, ?_⟩
  · have h := (C6_lambda_special_form 0 0 []).2.2.1 (.symbol "x") (.cons (.fixnum 5) .nil)
      .nil [.symbol "x"] (.fixnum 5) [] (by rfl)
      (by intro x hx; simp at hx; exact ⟨"x", hx⟩) (by intro s h; cases h)
    exact h
  · have h := (C6_lambda_special_form 0 0 []).2.2.2.1 (.symbol "x") (.fixnum 5)
      (.cons (.symbol "x") .nil) ["x"] (by rfl)
    exact h.trans (by rfl)
  · have h := (C6_lambda_special_form 0 0 []).2.2.2.2 .nil
    exact h.trans (by rfl)

theorem C6_lambda_counterexample :
    eval 2 (.cons (.symbol "lambda") (.cons (.cons (.symbol "x") (.fixnum 5)) .nil)) 0 []
      ≠ some (.error (.MismatchType (.fixnum 5) .Symbol)) ∧
    eval 2 (.cons (.symbol "lambda") (.cons (.cons (.symbol "x") (.fixnum 5)) .nil)) 0 []
      = some (.ok (.closure ["x"] .nil 0, [])) := by
  exact ⟨by decide, rfl⟩

/-- The counter program of spec section 8: mkcounter builds a closure
over a scope holding counter, and c increments that same scope on every
call. -/
def mkcounterDef : Value :=
  listOf [.symbol "define", .symbol "mkcounter",
    listOf [.symbol "lambda", .nil,
      listOf [.symbol "define", .symbol "counter", .fixnum 0],
      listOf [.symbol "lambda", .nil,
        listOf [.symbol "set!", .symbol "counter",
          listOf [.symbol "+", .symbol "counter", .fixnum 1]],
        .symbol "counter"]]]

def cDef : Value :=
  listOf [.symbol "define", .symbol "c", listOf [.symbol "mkcounter"]]

def cCall : Value := listOf [.symbol "c"]

/-- C4: after defining mkcounter and c in the global environment, three
successive evaluations of (c), each starting from the store the
previous one produced, return 1, 2 and 3: every call mutates the same
captured scope rather than a fresh one. -/
theorem C4_closure_capture_by_reference :
    ∃ (v1 : Value) (st1 : Store) (v2 : Value) (st2 st3 st4 st5 : Store),
      eval 20 mkcounterDef 0 global_env = some (.ok (v1, st1)) ∧
      eval 20 cDef 0 st1 = some (.ok (v2, st2)) ∧
      eval 20 cCall 0 st2 = some (.ok (.fixnum 1, st3)) ∧
      eval 20 cCall 0 st3 = some (.ok (.fixnum 2, st4)) ∧
      eval 20 cCall 0 st4 = some (.ok (.fixnum 3, st5)) :=
  ⟨_, _, _, _, _, _, _, rfl, rfl, rfl, rfl, rfl⟩

/-- Whether a value can be applied (`Func` or `Closure`). -/
def isCallable : Value → Bool
  | .func _ => true
  | .closure _ _ _ => true
  | _ => false

theorem evalArgsWith_append (ev : Ev) (l1 l2 : List Value) (envId : Nat) (store : Store) :
    evalArgsWith ev (l1 ++ l2) envId store
      = match evalArgsWith ev l1 envId store with
        | none => none
        | some (.error e) => some (.error e)
        | some (.ok (vs, st1)) =>
          match evalArgsWith ev l2 envId st1 with
          | none => none
          | some (.error e) => some (.error e)
          | some (.ok (ws, st2)) => some (.ok (vs ++ ws, st2)) := by
  induction l1 generalizing store with
  | nil =>
    rcases h2 : evalArgsWith ev l2 envId store with _ | (e | ⟨ws, st2⟩) <;>
      simp [evalArgsWith, h2]
  | cons v rest ih =>
    rcases hv : ev v envId store with _ | (e | ⟨w, st1⟩)
    · simp [evalArgsWith, hv]
    · simp [evalArgsWith, hv]
    · rcases hr : evalArgsWith ev rest envId st1 with _ | (e | ⟨vs, st2⟩)
      · simp [evalArgsWith, hv, hr, ih st1]
      · simp [evalArgsWith, hv, hr, ih st1]
      · rcases h2 : evalArgsWith ev l2 envId st2 with _ | (e | ⟨ws, st3⟩) <;>
          simp [evalArgsWith, hv, hr, h2, ih st1]

/-- C2: for a pair expression whose head is not one of the five special
form symbols, the head is evaluated first (its error is returned for
any tail), then the remaining elements are evaluated left to right in
the same environment, the first error short-circuiting (later elements
do not occur in the result); if everything succeeds and the evaluated
head is neither a native procedure nor a closure, the result is
MismatchType(value, Function). -/
theorem C2_generic_application (fuel : Nat) (hd d : Value) (envId : Nat) (store : Store)
    (hsp : isSpecialHead hd = false) :
    (∀ err, eval fuel hd envId store = some (.error err) →
      eval (fuel + 1) (.cons hd d) envId store = some (.error err)) ∧
    (∀ f store1 pre bad post vals store2 err,
      listElems d = pre ++ bad :: post →
      eval fuel hd envId store = some (.ok (f, store1)) →
      evalArgsWith (eval_internal fuel) pre envId store1 = some (.ok (vals, store2)) →
      eval fuel bad envId store2 = some (.error err) →
      eval (fuel + 1) (.cons hd d) envId store = some (.error err)) ∧
    (∀ f store1 vals store2,
      eval fuel hd envId store = some (.ok (f, store1)) →
      evalArgsWith (eval_internal fuel) (listElems d) envId store1
        = some (.ok (vals, store2)) →
      isCallable f = false →
      eval (fuel + 1) (.cons hd d) envId store
        = some (.error (.MismatchType f .Function))) := by
  refine ⟨fun err herr => ?_, fun f store1 pre bad post vals store2 err he hh ha hb => ?_,
    fun f store1 vals store2 hh ha hf => ?_⟩
  · rw [eval_apply_dispatch fuel hd d envId store hsp]
    simp only [eval] at herr
    simp only [apply_function, herr]
  · rw [eval_apply_dispatch fuel hd d envId store hsp]
    simp only [eval] at hh hb
    simp only [apply_function, hh, he, evalArgsWith_append, ha]
    simp only [evalArgsWith, hb]
  · rw [eval_apply_dispatch fuel hd d envId store hsp]
    simp only [eval] at hh
    simp only [apply_function, hh, ha]
    cases f with
    | func b => simp [isCallable] at hf
    | closure p b e => simp [isCallable] at hf
    | nil => rfl
    | fixnum n => rfl
    | symbol s => rfl
    | cons a b => rfl

theorem C2_generic_application_witness :
    eval 2 (.cons (.symbol "nosuch") .nil) 0 []
      = some (.error (.UnboundVariable "nosuch")) ∧
    eval 2 (.cons (.fixnum 9) (listOf [.symbol "nope", .symbol "later"])) 0 []
      = some (.error (.UnboundVariable "nope")) ∧
    eval 2 (.cons (.fixnum 9) .nil) 0 []
      = some (.error (.MismatchType (.fixnum 9) .Function)) := by
  refine ⟨(C2_generic_application 1 (.symbol "nosuch") .nil 0 [] (by decide)).1
      (.UnboundVariable "nosuch") (by decide), ?_, ?_⟩
  · exact (C2_generic_application 1 (.fixnum 9) (listOf [.symbol "nope", .symbol "later"])
      0 [] (by decide)).2.1 (.fixnum 9) [] [] (.symbol "nope") [.symbol "later"] [] []
      (.UnboundVariable "nope") (by decide) (by decide) (by decide) (by decide)
  · exact (C2_generic_application 1 (.fixnum 9) .nil 0 [] (by decide)).2.2 (.fixnum 9) []
      [] [] (by decide) (by decide) (by decide)

theorem tableLookup_tableInsert_self (t : List (String × Value)) (name : String) (v : Value) :
    tableLookup (tableInsert t name v) name = some v := by
  induction t with
  | nil => simp [tableInsert, tableLookup]
  | cons kv rest ih =>
    obtain ⟨k, w⟩ := kv
    by_cases hk : k = name
    · simp [tableInsert, tableLookup, hk]
    · simp [tableInsert, tableLookup, hk, ih]

theorem tableLookup_tableInsert_other (t : List (String × Value)) (name : String) (v : Value)
    (x : String) (h : x ≠ name) :
    tableLookup (tableInsert t name v) x = tableLookup t x := by
  induction t with
  | nil => simp [tableInsert, tableLookup, Ne.symm h]
  | cons kv rest ih =>
    obtain ⟨k, w⟩ := kv
    by_cases hk : k = name
    · subst hk
      simp [tableInsert, tableLookup, Ne.symm h]
    · simp only [tableInsert, if_neg hk, tableLookup, ih]

theorem bindParams_lookup_notmem (t : List (String × Value)) (params : List String)
    (args : List Value) (name : String) (h : name ∉ params) :
    tableLookup (bindParams t params args) name = tableLookup t name := by
  induction params generalizing t args with
  | nil => cases args <;> rfl
  | cons p ps ih =>
    cases args with
    | nil => rfl
    | cons a rest =>
      simp only [List.mem_cons, not_or] at h
      rw [bindParams, ih (tableInsert t p a) rest h.2,
        tableLookup_tableInsert_other t p a name h.1]

theorem bindParams_lookup_get (t : List (String × Value)) (params : List String)
    (args : List Value) (hnd : params.Nodup) (hlen : args.length = params.length)
    (i : Nat) (hi : i < params.length) :
    tableLookup (bindParams t params args) (params.getD i "")
      = some (args.getD i .nil) := by
  induction params generalizing t args i with
  | nil => exact absurd hi (by simp)
  | cons p ps ih =>
    cases args with
    | nil => simp at hlen
    | cons a rest =>
      simp only [List.nodup_cons] at hnd
      cases i with
      | zero =>
        simp only [List.getD_cons_zero, bindParams]
        rw [bindParams_lookup_notmem (tableInsert t p a) ps rest p hnd.1,
          tableLookup_tableInsert_self]
      | succ j =>
        simp only [List.getD_cons_succ, bindParams]
        exact ih (tableInsert t p a) rest hnd.2 (by simpa using hlen) j
          (by simp only [List.length_cons] at hi; omega)

theorem evalBodyWith_append (ev : Ev) (l1 l2 : List Value) (envId : Nat) (store : Store)
    (acc : Value) :
    evalBodyWith ev (l1 ++ l2) envId store acc
      = match evalBodyWith ev l1 envId store acc with
        | none => none
        | some (.error e) => some (.error e)
        | some (.ok (v, st1)) => evalBodyWith ev l2 envId st1 v := by
  induction l1 generalizing store acc with
  | nil => simp [evalBodyWith]
  | cons form rest ih =>
    rcases hf : ev form envId store with _ | (e | ⟨v, st1⟩)
    · simp [evalBodyWith, hf]
    · simp [evalBodyWith, hf]
    · simp [evalBodyWith, hf, ih st1 v]

/-- C3: applying a closure with parameter count n to m arguments
returns WrongNumArgs(m, n) when m differs from n, independently of the
evaluator and the body (no body form is evaluated); when m equals n a
fresh child scope of the captured environment is allocated at the end
of the store, each parameter bound positionally to the corresponding
argument (lookup of the i-th parameter gives the i-th argument when the
parameters are distinct), the body forms are evaluated in order in that
child scope starting from the result Nil, the first error aborting the
rest, an empty body giving Nil and a nonempty body the value of its
last form. -/
theorem C3_apply_closure :
    (∀ (ev : Ev) (params : List String) (body : Value) (cenv : Nat) (args : List Value)
        (store : Store), args.length ≠ params.length →
      apply_closure ev params body cenv args store
        = some (.error (.WrongNumArgs args.length params.length))) ∧
    (∀ (ev : Ev) (params : List String) (body : Value) (cenv : Nat) (args : List Value)
        (store : Store), args.length = params.length →
      apply_closure ev params body cenv args store
        = evalBodyWith ev (listElems body) store.length
            (store ++ [{ parent := some cenv, table := bindParams [] params args }]) .nil) ∧
    (∀ (params : List String) (args : List Value), params.Nodup →
      args.length = params.length → ∀ i : Nat, i < params.length →
      tableLookup (bindParams [] params args) (params.getD i "")
        = some (args.getD i .nil)) ∧
    (∀ (ev : Ev) (envId : Nat) (store : Store),
      evalBodyWith ev ([] : List Value) envId store .nil = some (.ok (.nil, store))) ∧
    (∀ (ev : Ev) (pre : List Value) (bad : Value) (post : List Value) (envId : Nat)
        (store st1 : Store) (v : Value) (err : RuntimeError),
      evalBodyWith ev pre envId store .nil = some (.ok (v, st1)) →
      ev bad envId st1 = some (.error err) →
      evalBodyWith ev (pre ++ bad :: post) envId store .nil = some (.error err)) ∧
    (∀ (ev : Ev) (pre : List Value) (last : Value) (envId : Nat) (store st1 : Store)
        (v : Value),
      evalBodyWith ev pre envId store .nil = some (.ok (v, st1)) →
      evalBodyWith ev (pre ++ [last]) envId store .nil = ev last envId st1) := by
  refine ⟨fun ev params body cenv args store h => ?_,
    fun ev params body cenv args store h => ?_,
    fun params args hnd hlen i hi => bindParams_lookup_get [] params args hnd hlen i hi,
    fun ev envId store => rfl,
    fun ev pre bad post envId store st1 v err hpre hbad => ?_,
    fun ev pre last envId store st1 v hpre => ?_⟩
  · simp only [apply_closure, if_pos (Ne.symm h)]
  · simp only [apply_closure, if_neg (by omega : ¬ params.length ≠ args.length)]
  · rw [evalBodyWith_append, hpre]
    simp [evalBodyWith, hbad]
  · rw [evalBodyWith_append, hpre]
    rcases hl : ev last envId st1 with _ | (e | ⟨w, st2⟩) <;> simp [evalBodyWith, hl]

theorem C3_apply_closure_witness :
    apply_closure (eval 5) ["x"] .nil 0 [] []
      = some (.error (.WrongNumArgs 0 1)) ∧
    apply_closure (eval 5) ["x"] (.cons (.symbol "x") .nil) 0 [.fixnum 4]
      [{ parent := none, table := [] }]
      = evalBodyWith (eval 5) [.symbol "x"] 1
          [{ parent := none, table := [] },
           { parent := some 0, table := [("x", .fixnum 4)] }] .nil ∧
    tableLookup (bindParams [] ["x", "y"] [.fixnum 1, .fixnum 2]) "y" = some (.fixnum 2) ∧
    evalBodyWith (eval 5) ([] : List Value) 0 [] .nil = some (.ok (.nil, [])) ∧
    evalBodyWith (eval 5) [.fixnum 1, .symbol "nope", .fixnum 2] 0 [] .nil
      = some (.error (.UnboundVariable "nope")) ∧
    evalBodyWith (eval 5) [.fixnum 1, .fixnum 2] 0 [] .nil
      = some (.ok (.fixnum 2, [])) := by
  refine ⟨C3_apply_closure.1 (eval 5) ["x"] .nil 0 [] [] (by decide), ?_, ?_,
    C3_apply_closure.2.2.2.1 (eval 5) 0 [], ?_, ?_⟩
  · exact (C3_apply_closure.2.1 (eval 5) ["x"] (.cons (.symbol "x") .nil) 0 [.fixnum 4]
      [{ parent := none, table := [] }] (by decide)).trans (by rfl)
  · have h := C3_apply_closure.2.2.1 ["x", "y"] [.fixnum 1, .fixnum 2] (by decide)
      (by decide) 1 (by decide)
    exact h.trans (by rfl)
  · exact C3_apply_closure.2.2.2.2.1 (eval 5) [.fixnum 1] (.symbol "nope") [.fixnum 2] 0 []
      [] (.fixnum 1) (.UnboundVariable "nope") (by decide) (by decide)
  · exact (C3_apply_closure.2.2.2.2.2 (eval 5) [.fixnum 1] (.fixnum 2) 0 [] [] (.fixnum 1)
      (by decide)).trans (by decide)

theorem envSetF_none_iff (fuel : Nat) (store : Store) (id : Nat) (name : String)
    (v : Value) :
    envSetF fuel store id name v = none
      ↔ ∀ i ∈ envChainF fuel store id, scopeHas store i name = false := by
  induction fuel generalizing id with
  | zero => simp [envSetF, envChainF]
  | succ n ih =>
    simp only [envSetF, envChainF]
    rcases hg : store[id]? with _ | sc
    · simp
    · rcases hl : tableLookup sc.table name with _ | w
      · rcases hp : sc.parent with _ | p
        · simp [scopeHas, scopeLookup, hg, hl, hp]
        · simp [scopeHas, scopeLookup, hg, hl, hp, ih]
      · rcases hp : sc.parent with _ | p <;>
          simp [scopeHas, scopeLookup, hg, hl, hp]

theorem envSetF_found (fuel : Nat) (store : Store) (id : Nat) (name : String) (v : Value)
    (pre : List Nat) (j : Nat) (post : List Nat)
    (hchain : envChainF fuel store id = pre ++ j :: post)
    (hpre : ∀ i ∈ pre, scopeHas store i name = false)
    (hj : scopeHas store j name = true) :
    ∃ sc, store[j]? = some sc ∧
      envSetF fuel store id name v
        = some (store.set j { sc with table := tableInsert sc.table name v }) := by
  induction fuel generalizing id pre with
  | zero => simp [envChainF] at hchain
  | succ n ih =>
    simp only [envChainF] at hchain
    rcases hg : store[id]? with _ | sc
    · simp [hg] at hchain
    · simp only [hg] at hchain
      rcases hp : sc.parent with _ | p
      · simp only [hp] at hchain
        cases pre with
        | nil =>
          simp only [List.nil_append, List.cons.injEq] at hchain
          obtain ⟨hj2, -⟩ := hchain
          subst hj2
          simp only [scopeHas, scopeLookup, hg] at hj
          rcases hl : tableLookup sc.table name with _ | w
          · rw [hl] at hj
            simp at hj
          · exact ⟨sc, hg, by simp only [envSetF, hg, hl]⟩
        | cons q qs =>
          have := congrArg List.length hchain
          simp [List.length_append] at this
      · simp only [hp] at hchain
        cases pre with
        | nil =>
          simp only [List.nil_append, List.cons.injEq] at hchain
          obtain ⟨hj2, -⟩ := hchain
          subst hj2
          simp only [scopeHas, scopeLookup, hg] at hj
          rcases hl : tableLookup sc.table name with _ | w
          · rw [hl] at hj
            simp at hj
          · exact ⟨sc, hg, by simp only [envSetF, hg, hl]⟩
        | cons q qs =>
          simp only [List.cons_append, List.cons.injEq] at hchain
          obtain ⟨hq, hrest⟩ := hchain
          have hid : scopeHas store id name = false := by
            rw [hq]
            exact hpre q (by simp)
          simp only [scopeHas, scopeLookup, hg] at hid
          rcases hl : tableLookup sc.table name with _ | w
          · obtain ⟨sc2, hg2, hset2⟩ := ih p qs hrest (fun i hi => hpre i (by simp [hi]))
            exact ⟨sc2, hg2, by simp only [envSetF, hg, hl, hp, hset2]⟩
          · rw [hl] at hid
            simp at hid

/-- C5: given that the right-hand side expression evaluates successfully
to v (producing store1), evaluating (set! name expr) fails with
UnboundVariable(name) exactly when no scope in the chain from the
current environment contains a binding for name; when the chain does
contain one, the first such scope has its binding overwritten with v,
every other binding of every scope is unchanged (as is the shape of the
store), and the evaluated value v is returned. -/
theorem C5_set_special_form (fuel : Nat) (name : String) (expr : Value) (envId : Nat)
    (store store1 : Store) (v : Value)
    (heval : eval fuel expr envId store = some (.ok (v, store1))) :
    (eval (fuel + 1) (.cons (.symbol "set!") (.cons (.symbol name) (.cons expr .nil)))
        envId store = some (.error (.UnboundVariable name))
      ↔ ∀ i ∈ envChain store1 envId, scopeHas store1 i name = false) ∧
    (∀ pre j post, envChain store1 envId = pre ++ j :: post →
      (∀ i ∈ pre, scopeHas store1 i name = false) → scopeHas store1 j name = true →
      ∃ store2,
        eval (fuel + 1) (.cons (.symbol "set!") (.cons (.symbol name) (.cons expr .nil)))
            envId store = some (.ok (v, store2)) ∧
        scopeLookup store2 j name = some v ∧
        (∀ i x, i ≠ j ∨ x ≠ name → scopeLookup store2 i x = scopeLookup store1 i x) ∧
        store2.length = store1.length ∧
        (∀ i, scopeParent store2 i = scopeParent store1 i)) := by
  have hdisp : eval (fuel + 1)
      (.cons (.symbol "set!") (.cons (.symbol name) (.cons expr .nil))) envId store
      = eval_set (eval_internal fuel) [.symbol name, expr] envId store := by
    rw [eval_set_dispatch]
    rfl
  simp only [eval] at heval
  have hset : eval_set (eval_internal fuel) [.symbol name, expr] envId store
      = match envSet store1 envId name v with
        | some store2 => some (.ok (v, store2))
        | none => some (.error (.UnboundVariable name)) := by
    simp only [eval_set, check_num_args]
    rw [show [Value.symbol name, expr].headD Value.nil = Value.symbol name from rfl,
      show [Value.symbol name, expr].getD 1 Value.nil = expr from rfl]
    simp only [heval]
    rfl
  constructor
  · rw [hdisp, hset]
    rcases hs : envSet store1 envId name v with _ | store2
    · simp only [envSet] at hs
      simp only [envChain]
      exact ⟨fun _ => (envSetF_none_iff _ store1 envId name v).mp hs, fun _ => trivial⟩
    · refine iff_of_false (by simp) ?_
      intro hall
      simp only [envChain] at hall
      have hnone := (envSetF_none_iff (store1.length + 1) store1 envId name v).mpr hall
      simp only [envSet] at hs
      rw [hs] at hnone
      cases hnone
  · intro pre j post hchain hpre hj
    simp only [envChain] at hchain
    obtain ⟨sc, hg, hsetf⟩ := envSetF_found (store1.length + 1) store1 envId name v
      pre j post hchain hpre hj
    have hjlt : j < store1.length := (List.getElem?_eq_some.mp hg).1
    refine ⟨store1.set j { sc with table := tableInsert sc.table name v },
      ?_, ?_, ?_, ?_, ?_⟩
    · rw [hdisp, hset]
      simp only [envSet, hsetf]
    · simp only [scopeLookup, List.getElem?_set_eq_of_lt _ hjlt]
      exact tableLookup_tableInsert_self sc.table name v
    · intro i x hix
      rcases eq_or_ne i j with hij | hij
      · subst hij
        rcases hix with hij | hx
        · exact absurd rfl hij
        · simp only [scopeLookup, List.getElem?_set_eq_of_lt _ hjlt, hg]
          exact tableLookup_tableInsert_other sc.table name v x hx
      · simp only [scopeLookup, List.getElem?_set_ne (Ne.symm hij)]
    · exact List.length_set store1 j _
    · intro i
      rcases eq_or_ne i j with hij | hij
      · subst hij
        simp only [scopeParent, List.getElem?_set_eq_of_lt _ hjlt, hg]
      · simp only [scopeParent, List.getElem?_set_ne (Ne.symm hij)]

theorem C5_set_special_form_witness :
    eval 2 (.cons (.symbol "set!") (.cons (.symbol "b") (.cons (.fixnum 5) .nil))) 0
      [{ parent := none, table := [("a", .fixnum 0)] }]
      = some (.error (.UnboundVariable "b")) ∧
    ∃ store2,
      eval 2 (.cons (.symbol "set!") (.cons (.symbol "a") (.cons (.fixnum 5) .nil))) 0
        [{ parent := none, table := [("a", .fixnum 0)] }]
        = some (.ok (.fixnum 5, store2)) ∧
      scopeLookup store2 0 "a" = some (.fixnum 5) := by
  constructor
  · exact (C5_set_special_form 1 "b" (.fixnum 5) 0
      [{ parent := none, table := [("a", .fixnum 0)] }]
      [{ parent := none, table := [("a", .fixnum 0)] }] (.fixnum 5) (by decide)).1.mpr
      (by decide)
  · obtain ⟨store2, h1, h2, _⟩ := (C5_set_special_form 1 "a" (.fixnum 5) 0
      [{ parent := none, table := [("a", .fixnum 0)] }]
      [{ parent := none, table := [("a", .fixnum 0)] }] (.fixnum 5) (by decide)).2
      [] 0 [] (by decide) (by decide) (by decide)
    exact ⟨store2, h1, h2⟩

end Lisp
